import Mathlib

/-!
Shallow embedding of the FileStorage server (`src/server.js`): the HTTP Range
calculator (`parseRange`, lines 68-87), the range streamer (`streamWithRange`,
lines 89-124, and `setAttachmentHeaders`, lines 554-571), the chunked-upload
handler (`POST /api/upload/chunk`, lines 382-475), and the delete handler
(`DELETE /api/files/:id`, lines 658-685).

JavaScript numbers obtained from `Number(token)` are modelled as `Option Int`,
where `none` models `NaN` (`Number(undefined)` is `NaN`) and `some v` a real
number.  The embedding of `Number` covers the empty string (which JavaScript
converts to `0`) and non-negative decimal integer numerals; any other token is
modelled as `NaN`.  Comparisons against `NaN` are false in JavaScript, which
the embedding reproduces explicitly at each comparison site.
-/

namespace FileStorage

/-- Numeric value of a list of decimal digit characters (the value
`Number` gives a digit string). -/
def digitsVal (cs : List Char) : Nat :=
  cs.foldl (fun n c => n * 10 + (c.toNat - 48)) 0

/-- JavaScript `Number(token)` for the split tokens of the Range header:
`none` input models `undefined` (token absent), giving `NaN`; the empty
string gives `0`; a digit string gives its value; anything else is `NaN`
(modelled as `none` in the result). -/
def jsNumber : Option (List Char) → Option Int
  | none => none
  | some [] => some 0
  | some cs => if cs.all (·.isDigit) then some (digitsVal cs) else none

/-- JavaScript `String.prototype.split('-')` on a character list:
always returns at least one field; separators delimit possibly-empty
fields. -/
def splitDash : List Char → List (List Char)
  | [] => [[]]
  | c :: rest =>
    if c = '-' then [] :: splitDash rest
    else
      match splitDash rest with
      | t :: ts => (c :: t) :: ts
      | [] => [[c]]

/-- The object `{ start, end, size }` returned by `parseRange`
(src/server.js line 86).  `start` is `Option Int` because the resolved
start can be `NaN` (see `parseRange`); `e` embeds the field `end`. -/
structure ParsedRange where
  start : Option Int
  e : Int
  size : Int
deriving Repr, DecidableEq

/-- The arithmetic part of `parseRange` (src/server.js lines 73-86), after
the two tokens have been converted by `Number`: the suffix rewrite taken
when `start` is `NaN` (line 76-79), the end clamp (line 80-82), and the
final validity test (line 83-85), with JavaScript `NaN` semantics: a
comparison against `NaN` is false, and `size - NaN` is `NaN`. -/
def resolveRange (start0 end0 : Option Int) (size : Int) : Option ParsedRange :=
  let se : Option Int × Option Int :=
    match start0 with
    | none => (end0.map (fun e0 => size - e0), some (size - 1))
    | some s => (some s, end0)
  let end2 : Int :=
    match se.2 with
    | none => size - 1
    | some e0 => if e0 ≥ size then size - 1 else e0
  let startBad : Bool :=
    match se.1 with
    | some s => decide (s < 0) || decide (s > end2)
    | none => false
  if startBad = true ∨ end2 ≥ size then none
  else some ⟨se.1, end2, size⟩

/-- `parseRange(rangeHeader, size)` (src/server.js lines 68-87).  A `none`
header models an absent `Range` header.  The code strips the `bytes=`
prefix (the `replace` call removes the first occurrence, which under the
`startsWith` guard is the prefix), splits on `-`, converts the first two
fields with `Number`, and resolves them with the arithmetic of
`resolveRange`. -/
def parseRange (rangeHeader : Option String) (size : Int) : Option ParsedRange :=
  match rangeHeader with
  | none => none
  | some h =>
    let cs := h.data
    if cs.take 6 = ['b', 'y', 't', 'e', 's', '='] then
      let fields := splitDash (cs.drop 6)
      resolveRange (jsNumber fields[0]?) (jsNumber fields[1]?) size
    else none

/-- Response produced by the streaming helpers: status code, the
`Accept-Ranges: bytes` header, the `Content-Range` header as its numeric
triple `(start, end, size)` when present, `Content-Length`, and the bytes
written to the response body. -/
structure StreamResponse where
  status : Nat
  acceptRanges : Bool
  contentRange : Option (Int × Int × Int)
  contentLength : Int
  body : List Nat
deriving Repr, DecidableEq

/-- The byte window `fs.createReadStream(path, { start, end })` delivers:
bytes `start .. end` inclusive. -/
def sliceBytes (content : List Nat) (s e : Int) : List Nat :=
  (content.drop s.toNat).take (e - s + 1).toNat

/-- `streamWithRange` (src/server.js lines 89-124) on a file whose bytes
are `content`: parse the Range header against the file size; on a range,
respond 206 with `Content-Range: bytes start-end/size`,
`Content-Length = end - start + 1` and the byte window; otherwise respond
200 with the full content.  When the resolved `start` is `NaN`,
`fs.createReadStream` rejects its option object and no response body is
produced; that case is modelled as `none`. -/
def streamWithRange (rangeHeader : Option String) (content : List Nat) :
    Option StreamResponse :=
  let size : Int := content.length
  match parseRange rangeHeader size with
  | some r =>
    match r.start with
    | some s =>
      some { status := 206, acceptRanges := true,
             contentRange := some (s, r.e, size),
             contentLength := r.e - s + 1,
             body := sliceBytes content s r.e }
    | none => none
  | none =>
    some { status := 200, acceptRanges := true, contentRange := none,
           contentLength := size, body := content }

/-! ## Chunked upload (`POST /api/upload/chunk`, src/server.js lines 382-475)

The embedding models a single upload session (the handler touches only the
session named by `uploadId`), the per-session chunk directory, the final
artifact file at `UPLOAD_DIR/storedName`, and the `file` metadata table.
Request fields already converted by `Number` are modelled as integers; the
handler's `Number.isInteger` guards make non-integer inputs 400 responses,
so integer-valued requests cover every accepted request. -/

/-- The `uploadSession` row for the session (its `size`, `totalChunks` and
`uploadedChunks` columns; `uploaded_chunks` defaults to 0 at init). -/
structure Session where
  size : Int
  totalChunks : Nat
  uploadedChunks : Nat
deriving Repr, DecidableEq

/-- A `file` metadata row created at finalize (the fields the claims
observe). -/
structure FileRec where
  size : Int
deriving Repr, DecidableEq

/-- Server state touched by the chunk handler: the session row (`none`
once deleted), the chunk files of the session directory as an association
list from chunk index to bytes (newest write first, matching
`fsp.writeFile` overwrite semantics through `lookupPart`), the bytes of
the final artifact file (`none` while absent), and the `file` table. -/
structure UpState where
  session : Option Session
  parts : List (Nat × List Nat)
  finalFile : Option (List Nat)
  records : List FileRec
deriving Repr, DecidableEq

/-- Read the chunk file at index `i`: the most recent write wins. -/
def lookupPart (parts : List (Nat × List Nat)) (i : Nat) : Option (List Nat) :=
  (parts.find? (fun p => p.1 == i)).map (·.2)

/-- A chunk submission after `Number` conversion of its form fields
(src/server.js lines 391-392): `chunkIndex`, `totalChunks`, `size`, and
the uploaded payload bytes. -/
structure ChunkReq where
  index : Int
  declTotal : Int
  declSize : Int
  bytes : List Nat
deriving Repr, DecidableEq

/-- Responses of the chunk handler: 400 validation errors, 404 for an
unknown session, the `completed:false` progress reply, the
`completed:true` reply carrying the created artifact record, and the 500
reply of the catch block. -/
inductive ChunkResp
  | badRequest (msg : String)
  | notFound
  | progress (received : Int) (uploadedChunks : Nat) (total : Nat)
  | completed (file : FileRec)
  | serverError
deriving Repr, DecidableEq

/-- The finalize concatenation loop (src/server.js lines 439-448): visit
the indices in order, appending each chunk's bytes to the write stream;
on the first missing chunk file `fsp.access` throws, leaving the bytes
appended so far in the stream.  Returns the bytes written and whether the
loop completed. -/
def writeLoop (parts : List (Nat × List Nat)) :
    List Nat → List Nat → List Nat × Bool
  | [], acc => (acc, true)
  | i :: rest, acc =>
    match lookupPart parts i with
    | none => (acc, false)
    | some b => writeLoop parts rest (acc ++ b)

/-- The chunk handler after the `findUnique` session read (src/server.js
lines 406-474), parameterised by the snapshot `sess` that read returned;
under sequential execution the snapshot is the stored session, but a
concurrent handler may run this continuation after the stored session has
changed.  `createFails` injects a failure of the `prisma.file.create`
metadata insert (line 457).  Steps, in source order: metadata-mismatch
and size-mismatch checks against the snapshot (406-413), chunk file write
(415-419), `uploadedChunks` increment on the stored row — a missing row
makes `prisma.uploadSession.update` throw, which the catch block turns
into a 500 (421-424) —, the progress reply when the submitted index is
not the last (426-433), otherwise the finalize block: concatenation loop
(436-451), chunk-directory cleanup (453-455), metadata insert (457-466),
session delete with ignored failure (468), completed reply (470).  The
catch block (471-474) performs no cleanup. -/
def chunkHandlerRest (createFails : Bool) (sess : Session) (req : ChunkReq)
    (st : UpState) : UpState × ChunkResp :=
  if req.index ≥ (sess.totalChunks : Int) ∨ req.declTotal ≠ (sess.totalChunks : Int) then
    (st, .badRequest "Chunk metadata mismatch.")
  else if req.declSize ≠ sess.size then
    (st, .badRequest "Size mismatch for upload session.")
  else
    let st1 : UpState := { st with parts := (req.index.toNat, req.bytes) :: st.parts }
    match st1.session with
    | none => (st1, .serverError)
    | some cur =>
      let updated : Session := { cur with uploadedChunks := cur.uploadedChunks + 1 }
      let st2 : UpState := { st1 with session := some updated }
      if req.index + 1 < (sess.totalChunks : Int) then
        (st2, .progress req.index updated.uploadedChunks sess.totalChunks)
      else
        let wl := writeLoop st1.parts (List.range sess.totalChunks) []
        if wl.2 = false then
          ({ st2 with finalFile := some wl.1 }, .serverError)
        else
          let st3 : UpState := { st2 with finalFile := some wl.1, parts := [] }
          if createFails then (st3, .serverError)
          else
            ({ st3 with session := none, records := ⟨sess.size⟩ :: st3.records },
             .completed ⟨sess.size⟩)

/-- The full chunk handler (src/server.js lines 382-475): the request
validations that precede the session read (lines 393-398), the
`findUnique` session read (line 401, 404 when absent), then the
continuation `chunkHandlerRest`. -/
def chunkHandler (createFails : Bool) (req : ChunkReq) (st : UpState) :
    UpState × ChunkResp :=
  if req.index < 0 then (st, .badRequest "Invalid chunk index.")
  else if req.declTotal ≤ 0 then (st, .badRequest "Invalid total chunk count.")
  else
    match st.session with
    | none => (st, .notFound)
    | some sess => chunkHandlerRest createFails sess req st

/-- Sequential execution of a list of chunk submissions, collecting the
response of each. -/
def runChunks (createFails : Bool) (reqs : List ChunkReq) (st : UpState) :
    UpState × List ChunkResp :=
  match reqs with
  | [] => (st, [])
  | r :: rs =>
    let p := chunkHandler createFails r st
    let q := runChunks createFails rs p.1
    (q.1, p.2 :: q.2)

/-- State right after `POST /api/upload/init` created the session: fresh
row with `uploadedChunks = 0`, empty chunk directory, no final artifact,
no metadata row for it. -/
def initState (size : Int) (totalChunks : Nat) : UpState :=
  { session := some ⟨size, totalChunks, 0⟩, parts := [], finalFile := none,
    records := [] }

/-- The well-formed submission of chunk `i` of a session with the given
payload list: declared totals match the session and the payload is the
`i`-th element. -/
def mkReq (payloads : List (List Nat)) (size : Int) (total : Nat) (i : Nat) :
    ChunkReq :=
  { index := i, declTotal := total, declSize := size, bytes := payloads.getD i [] }

/-! ## Delete (`DELETE /api/files/:id`, src/server.js lines 658-685) -/

/-- State the delete handler touches for one file id: whether the `file`
metadata row exists and the backing bytes on disk (`none` when already
absent). -/
structure DelState where
  record : Bool
  diskFile : Option (List Nat)
deriving Repr, DecidableEq

/-- Outcome of `fsp.unlink` on the backing file. -/
inductive UnlinkResult
  | ok
  | enoent
  | ioError
deriving Repr, DecidableEq

/-- `fsp.unlink(filePath)`: `ENOENT` when the file is absent; `ioFault`
injects any other I/O failure. -/
def unlinkFile (file : Option (List Nat)) (ioFault : Bool) : UnlinkResult :=
  if ioFault then .ioError
  else match file with
  | none => .enoent
  | some _ => .ok

/-- Responses of the delete handler. -/
inductive DelResp
  | notFound
  | noContent
  | serverError
deriving Repr, DecidableEq

/-- The delete handler (src/server.js lines 658-685): 404 when the
metadata row is absent; unlink the backing bytes, rethrowing every
unlink error except `ENOENT` (lines 672-676) into the catch block's 500;
then delete the metadata row and reply 204. -/
def deleteHandler (st : DelState) (ioFault : Bool) : DelState × DelResp :=
  if st.record = false then (st, .notFound)
  else
    match unlinkFile st.diskFile ioFault with
    | .ioError => (st, .serverError)
    | _ => ({ record := false, diskFile := none }, .noContent)

/-! ## Shared lemmas about the range calculator -/

/-- Any range `resolveRange` returns carries the requested size, an end
at most `size - 1`, and, whenever its start is a real number (not the
leaked `NaN`), a start between `0` and the end: the final validity test
of src/server.js line 83 enforces exactly this. -/
theorem resolveRange_sound (s0 e0 : Option Int) (size : Int) (r : ParsedRange)
    (h : resolveRange s0 e0 size = some r) :
    r.size = size ∧ r.e ≤ size - 1 ∧ ∀ s, r.start = some s → 0 ≤ s ∧ s ≤ r.e := by
  rcases s0 with _ | s1 <;> rcases e0 with _ | e1 <;>
    simp only [resolveRange, Option.map_some', Option.map_none'] at h <;>
    repeat' split at h
  all_goals try cases h
  all_goals
    refine ⟨rfl, ?_, fun s hs => ?_⟩ <;>
      try simp only [Bool.or_eq_true, decide_eq_true_eq, not_or] at * <;>
      first
        | omega
        | cases hs
  all_goals omega

/-- `resolveRange_sound` lifted to `parseRange`. -/
theorem parseRange_sound (hdr : Option String) (size : Int) (r : ParsedRange)
    (h : parseRange hdr size = some r) :
    r.size = size ∧ r.e ≤ size - 1 ∧ ∀ s, r.start = some s → 0 ≤ s ∧ s ≤ r.e := by
  rcases hdr with _ | hs
  · cases h
  · simp only [parseRange] at h
    split at h
    · exact resolveRange_sound _ _ _ _ h
    · cases h

/-- The byte window `start .. end` of a file has exactly
`end - start + 1` bytes when the bounds are inside the file. -/
theorem sliceBytes_length (content : List Nat) (s e : Int)
    (h0 : 0 ≤ s) (h1 : s ≤ e) (h2 : e < (content.length : Int)) :
    (sliceBytes content s e).length = (e - s + 1).toNat := by
  simp only [sliceBytes, List.length_take, List.length_drop]
  omega

/-- The `i`-th byte of the window `start .. end` is byte `start + i` of
the file. -/
theorem sliceBytes_getElem? (content : List Nat) (s e : Int) (i : Nat)
    (hi : i < (e - s + 1).toNat) :
    (sliceBytes content s e)[i]? = content[s.toNat + i]? := by
  simp only [sliceBytes]
  rw [List.getElem?_take_of_lt hi, List.getElem?_drop]

/-! ## Claim theorems -/

/-- C2: the claim says `bytes=-N` on a resource of size `S` yields
`start = S - N, end = S - 1` (the last `N` bytes).  The code's suffix
branch (`start = size - end; end = size - 1`, src/server.js lines 76-79)
is unreachable for an empty start token, because JavaScript `Number('')`
is `0`, not `NaN`; so `bytes=-5` at size `100` resolves to
`start = 0, end = 5` — the first six bytes — instead of `start = 95,
end = 99`.  The branch's body is exactly the computation the spec
describes, evidencing that the empty token was meant to reach it. -/
theorem suffix_range_is_served_from_the_front :
    parseRange (some "bytes=-5") 100 = some ⟨some 0, 5, 100⟩ ∧
    parseRange (some "bytes=-5") 100 ≠ some ⟨some 95, 99, 100⟩ :=
  ⟨rfl, by decide⟩

/-- C6 counterexample: for the header `bytes=x` (start token non-numeric,
end token absent) at size 100, both tokens convert to `NaN`; the suffix
branch then sets `start = 100 - NaN = NaN` and `end = 99`, and `NaN`
fails every comparison of the final validity test, so `parseRange`
returns a range whose start is not a number — not a closed interval with
`0 ≤ start ≤ end ≤ size - 1`, refuting the claim as stated. -/
theorem range_interval_invariant_fails_on_nan :
    parseRange (some "bytes=x") 100 = some ⟨none, 99, 100⟩ ∧
    ¬ (∀ (hdr : String) (size : Int) (r : ParsedRange), 0 < size →
        parseRange (some hdr) size = some r →
        ∃ s : Int, r.start = some s ∧ 0 ≤ s ∧ s ≤ r.e ∧ r.e ≤ size - 1) := by
  refine ⟨rfl, fun hall => ?_⟩
  obtain ⟨s, hs, -⟩ := hall "bytes=x" 100 ⟨none, 99, 100⟩ (by norm_num) rfl
  cases hs

/-- C6 (amended): for every Range header string and every resource size
`S > 0`, the Range Calculator's result is either no range, or a range
whose end satisfies `end ≤ S - 1` and whose start, whenever it is a
number, satisfies `0 ≤ start ≤ end`; a header whose two tokens both fail
numeric conversion can yield a range whose start is `NaN`. -/
theorem parseRange_interval_bounds (hdr : Option String) (size : Int)
    (r : ParsedRange) (hsize : 0 < size) (h : parseRange hdr size = some r) :
    r.size = size ∧ r.e ≤ size - 1 ∧ ∀ s, r.start = some s → 0 ≤ s ∧ s ≤ r.e :=
  parseRange_sound hdr size r h

/-- Witness for C6's amended theorem at header `bytes=2-4`, size 10. -/
theorem parseRange_interval_bounds_witness :
    (0 : Int) < 10 ∧ parseRange (some "bytes=2-4") 10 = some ⟨some 2, 4, 10⟩ ∧
    ((⟨some 2, 4, 10⟩ : ParsedRange).size = 10 ∧
      (⟨some 2, 4, 10⟩ : ParsedRange).e ≤ 10 - 1 ∧
      ∀ s, (⟨some 2, 4, 10⟩ : ParsedRange).start = some s →
        0 ≤ s ∧ s ≤ (⟨some 2, 4, 10⟩ : ParsedRange).e) :=
  ⟨by norm_num, rfl, parseRange_interval_bounds (some "bytes=2-4") 10 _ (by norm_num) rfl⟩

/-- C7: when the Range header resolves to a valid range whose start is a
number, the streamer responds 206 with `Content-Range: bytes start-end/S`
(modelled as the numeric triple), `Content-Length = end - start + 1`,
`Accept-Ranges: bytes`, and a body of exactly the bytes `start .. end` of
the artifact; with no Range header it responds 200 with
`Content-Length = S`, `Accept-Ranges: bytes`, and the full content. -/
theorem range_streamer_serves_exact_window :
    (∀ (content : List Nat) (hdr : Option String) (r : ParsedRange) (s : Int),
      parseRange hdr (content.length : Int) = some r → r.start = some s →
      streamWithRange hdr content =
        some ⟨206, true, some (s, r.e, (content.length : Int)), r.e - s + 1,
              sliceBytes content s r.e⟩ ∧
      (sliceBytes content s r.e).length = (r.e - s + 1).toNat ∧
      ∀ i : Nat, i < (r.e - s + 1).toNat →
        (sliceBytes content s r.e)[i]? = content[s.toNat + i]?) ∧
    ∀ content : List Nat,
      streamWithRange none content =
        some ⟨200, true, none, (content.length : Int), content⟩ := by
  constructor
  · intro content hdr r s hp hstart
    obtain ⟨-, hle, hbound⟩ := parseRange_sound hdr _ r hp
    obtain ⟨hs0, hse⟩ := hbound s hstart
    refine ⟨?_, ?_, ?_⟩
    · simp only [streamWithRange]
      rw [hp]
      simp only [hstart]
    · exact sliceBytes_length content s r.e hs0 hse (by omega)
    · intro i hi
      exact sliceBytes_getElem? content s r.e i hi
  · intro content
    rfl

/-- Witness for C7 at a 3-byte artifact and header `bytes=1-2`. -/
theorem range_streamer_serves_exact_window_witness :
    parseRange (some "bytes=1-2") ((([10, 20, 30] : List Nat).length : Int)) =
      some ⟨some 1, 2, 3⟩ ∧
    (streamWithRange (some "bytes=1-2") [10, 20, 30] =
      some ⟨206, true, some (1, 2, (([10, 20, 30] : List Nat).length : Int)), 2 - 1 + 1,
            sliceBytes [10, 20, 30] 1 2⟩ ∧
      (sliceBytes [10, 20, 30] 1 2).length = ((2 : Int) - 1 + 1).toNat ∧
      ∀ i : Nat, i < ((2 : Int) - 1 + 1).toNat →
        (sliceBytes [10, 20, 30] 1 2)[i]? = [10, 20, 30][(1 : Int).toNat + i]?) ∧
    streamWithRange none [10, 20, 30] =
      some ⟨200, true, none, (([10, 20, 30] : List Nat).length : Int), [10, 20, 30]⟩ :=
  ⟨rfl,
   range_streamer_serves_exact_window.1 [10, 20, 30] (some "bytes=1-2") ⟨some 1, 2, 3⟩ 1 rfl rfl,
   range_streamer_serves_exact_window.2 [10, 20, 30]⟩

/-- C8: whenever the Range Calculator rejects the presented header as
unsatisfiable (returns `Invalid`, modelled as `none`), the streamer falls
back to a full 200 response carrying all the bytes — not a 416. -/
theorem invalid_range_served_as_full_response :
    ∀ (content : List Nat) (h : String),
      parseRange (some h) (content.length : Int) = none →
      streamWithRange (some h) content =
        some ⟨200, true, none, (content.length : Int), content⟩ := by
  intro content h hp
  simp only [streamWithRange]
  rw [hp]

/-- Witness for C8: `bytes=200-300` on a 100-byte artifact is
unsatisfiable and is served as a 200 response of all 100 bytes. -/
theorem invalid_range_served_as_full_response_witness :
    parseRange (some "bytes=200-300") (((List.replicate 100 7 : List Nat).length : Int)) = none ∧
    streamWithRange (some "bytes=200-300") (List.replicate 100 7) =
      some ⟨200, true, none, ((List.replicate 100 7 : List Nat).length : Int),
            List.replicate 100 7⟩ :=
  ⟨by rfl, invalid_range_served_as_full_response (List.replicate 100 7) "bytes=200-300" (by rfl)⟩

/-! ## Shared lemmas about the chunk store and the finalize loop -/

/-- Reading the chunk index just written returns the written bytes
(the most recent write wins). -/
theorem lookupPart_cons_self (j : Nat) (b : List Nat) (ps : List (Nat × List Nat)) :
    lookupPart ((j, b) :: ps) j = some b := by
  simp [lookupPart]

/-- A write at a different index does not affect a read. -/
theorem lookupPart_cons_ne (j : Nat) (b : List Nat) (ps : List (Nat × List Nat))
    (i : Nat) (h : j ≠ i) : lookupPart ((j, b) :: ps) i = lookupPart ps i := by
  simp [lookupPart, List.find?_cons, h]

/-- In a chunk directory written once per distinct index, each index
reads back its own bytes. -/
theorem lookupPart_map_self (l : List Nat) (f : Nat → List Nat) (i : Nat)
    (hnd : l.Nodup) (hmem : i ∈ l) :
    lookupPart (l.map (fun j => (j, f j))) i = some (f i) := by
  induction l with
  | nil => cases hmem
  | cons a t ih =>
    rcases List.mem_cons.mp hmem with h | h
    · subst h
      exact lookupPart_cons_self _ _ _
    · have hne : a ≠ i := fun he => (List.nodup_cons.mp hnd).1 (he ▸ h)
      rw [List.map_cons, lookupPart_cons_ne a (f a) _ i hne]
      exact ih (List.nodup_cons.mp hnd).2 h

/-- When every visited index is present, the finalize loop appends all
the chunk bytes in index order and reports success. -/
theorem writeLoop_complete (parts : List (Nat × List Nat)) (f : Nat → List Nat) :
    ∀ (idxs : List Nat) (acc : List Nat),
      (∀ i ∈ idxs, lookupPart parts i = some (f i)) →
      writeLoop parts idxs acc = (acc ++ (idxs.map f).join, true) := by
  intro idxs
  induction idxs with
  | nil => intro acc _; simp [writeLoop]
  | cons i rest ih =>
    intro acc hall
    have hi := hall i (List.mem_cons_self i rest)
    rw [writeLoop, hi]
    show writeLoop parts rest (acc ++ f i) = _
    rw [ih (acc ++ f i) (fun j hj => hall j (List.mem_cons_of_mem _ hj))]
    simp [List.append_assoc]

/-- Reading a payload list back by position over `0 .. length - 1`
reproduces the list. -/
theorem range_map_getD (l : List (List Nat)) :
    (List.range l.length).map (fun i => l.getD i []) = l := by
  induction l with
  | nil => rfl
  | cons a t ih =>
    rw [List.length_cons, List.range_succ_eq_map, List.map_cons, List.map_map]
    simp only [Function.comp_def, List.getD_cons_zero, List.getD_cons_succ]
    rw [ih]

/-- A well-formed submission of a non-final chunk index is accepted:
the chunk is stored and the handler replies `completed:false` after
incrementing the received count. -/
theorem chunkHandler_progress_step (payloads : List (List Nat)) (size : Int)
    (n i u : Nat) (p0 : List (Nat × List Nat)) (f0 : Option (List Nat))
    (r0 : List FileRec) (hi : i + 1 < n) :
    chunkHandler false (mkReq payloads size n i) ⟨some ⟨size, n, u⟩, p0, f0, r0⟩ =
      (⟨some ⟨size, n, u + 1⟩, (i, payloads.getD i []) :: p0, f0, r0⟩,
       .progress i (u + 1) n) := by
  have h0 : ¬ ((i : Int) < 0) := by omega
  have h1 : ¬ ((n : Int) ≤ 0) := by omega
  have h2 : ¬ ((i : Int) ≥ (n : Int) ∨ (n : Int) ≠ (n : Int)) := by
    push_neg
    exact ⟨by omega, rfl⟩
  have h3 : ¬ (size ≠ size) := fun h => h rfl
  have h4 : (i : Int) + 1 < (n : Int) := by omega
  simp only [chunkHandler, mkReq, chunkHandlerRest, if_neg h0, if_neg h1, if_neg h2,
    if_neg h3, if_pos h4, Int.toNat_natCast]

/-- Running submissions for a prefix and a suffix of requests composes. -/
theorem runChunks_append (cf : Bool) (as bs : List ChunkReq) (st : UpState) :
    runChunks cf (as ++ bs) st =
      ((runChunks cf bs (runChunks cf as st).1).1,
       (runChunks cf as st).2 ++ (runChunks cf bs (runChunks cf as st).1).2) := by
  induction as generalizing st with
  | nil => simp [runChunks]
  | cons a t ih => simp [runChunks, ih]

/-- Running any list of non-final chunk submissions stores each chunk,
counts each submission, touches neither the final file nor the metadata
table, and answers `completed:false` throughout. -/
theorem runChunks_prefix (payloads : List (List Nat)) (size : Int) (n : Nat) :
    ∀ (l : List Nat) (u : Nat) (p0 : List (Nat × List Nat)) (f0 : Option (List Nat))
      (r0 : List FileRec), (∀ i ∈ l, i + 1 < n) →
      (runChunks false (l.map (mkReq payloads size n)) ⟨some ⟨size, n, u⟩, p0, f0, r0⟩).1 =
        ⟨some ⟨size, n, u + l.length⟩,
          l.reverse.map (fun i => (i, payloads.getD i [])) ++ p0, f0, r0⟩ ∧
      ∀ resp ∈ (runChunks false (l.map (mkReq payloads size n))
          ⟨some ⟨size, n, u⟩, p0, f0, r0⟩).2, ∃ i v, resp = ChunkResp.progress i v n := by
  intro l
  induction l with
  | nil =>
    intro u p0 f0 r0 _
    constructor
    · simp [runChunks]
    · simp [runChunks]
  | cons i rest ih =>
    intro u p0 f0 r0 hall
    have hstep := chunkHandler_progress_step payloads size n i u p0 f0 r0
      (hall i (List.mem_cons_self i rest))
    have hrest := ih (u + 1) ((i, payloads.getD i []) :: p0) f0 r0
      (fun j hj => hall j (List.mem_cons_of_mem _ hj))
    constructor
    · have h1 := hrest.1
      rw [show u + 1 + rest.length = u + (rest.length + 1) from by omega] at h1
      simp only [List.map_cons, runChunks, hstep]
      rw [h1]
      simp only [List.reverse_cons, List.map_append, List.map_cons, List.map_nil,
        List.append_assoc, List.singleton_append, List.length_cons]
    · intro resp hresp
      simp only [List.map_cons, runChunks, hstep] at hresp
      rcases List.mem_cons.mp hresp with h | h
      · exact ⟨i, u + 1, h⟩
      · exact hrest.2 resp h

/-- Submitting the last chunk index when every index of the session reads
back its bytes runs the finalize block to completion: the final file
holds the concatenation in index order, the chunk directory is emptied,
one metadata row is inserted and the session row is deleted. -/
theorem chunkHandler_finalize_success (payloads : List (List Nat)) (size : Int)
    (n u : Nat) (p0 : List (Nat × List Nat)) (f0 : Option (List Nat)) (r0 : List FileRec)
    (hn : 0 < n) (hlen : payloads.length = n)
    (hlook : ∀ i, i < n →
      lookupPart ((n - 1, payloads.getD (n - 1) []) :: p0) i = some (payloads.getD i [])) :
    chunkHandler false (mkReq payloads size n (n - 1)) ⟨some ⟨size, n, u⟩, p0, f0, r0⟩ =
      (⟨none, [], some payloads.join, ⟨size⟩ :: r0⟩, .completed ⟨size⟩) := by
  have h0 : ¬ ((↑(n - 1) : Int) < 0) := by omega
  have h1 : ¬ ((n : Int) ≤ 0) := by omega
  have h2 : ¬ ((↑(n - 1) : Int) ≥ (n : Int) ∨ (n : Int) ≠ (n : Int)) := by
    push_neg
    exact ⟨by omega, rfl⟩
  have h3 : ¬ (size ≠ size) := fun h => h rfl
  have h4 : ¬ ((↑(n - 1) : Int) + 1 < (n : Int)) := by omega
  have hwl : writeLoop ((n - 1, payloads.getD (n - 1) []) :: p0) (List.range n) [] =
      (payloads.join, true) := by
    rw [writeLoop_complete _ (fun i => payloads.getD i []) (List.range n) []
      (fun i hi => hlook i (List.mem_range.mp hi))]
    rw [show List.range n = List.range payloads.length from by rw [hlen]]
    rw [range_map_getD]
    simp
  simp only [chunkHandler, mkReq, chunkHandlerRest, if_neg h0, if_neg h1, if_neg h2,
    if_neg h3, if_neg h4, Int.toNat_natCast, hwl]
  simp

/-- C1 (amended): for every order in which each chunk of a session is
submitted exactly once and the chunk with index `totalChunks - 1` is
submitted last, exactly one finalize runs — every earlier response is
`completed:false`, the final one is `completed:true`, and exactly one
metadata row exists — and the artifact's byte content equals the
concatenation of the chunk payloads in increasing index order. -/
theorem ordered_upload_assembles (payloads : List (List Nat)) (size : Int)
    (n : Nat) (ord : List Nat) (stF : UpState) (resps : List ChunkResp)
    (hn : 0 < n) (hlen : payloads.length = n) (hperm : ord.Perm (List.range (n - 1)))
    (hrun : runChunks false ((ord ++ [n - 1]).map (mkReq payloads size n))
        (initState size n) = (stF, resps)) :
    stF = ⟨none, [], some payloads.join, [⟨size⟩]⟩ ∧
    ∃ rs, resps = rs ++ [ChunkResp.completed ⟨size⟩] ∧
      ∀ r ∈ rs, ∃ i v, r = ChunkResp.progress i v n := by
  have hmem : ∀ i ∈ ord, i + 1 < n := fun i hi => by
    have := List.mem_range.mp (hperm.mem_iff.mp hi)
    omega
  have hpre := runChunks_prefix payloads size n ord 0 [] none [] hmem
  have hlook : ∀ i, i < n →
      lookupPart ((n - 1, payloads.getD (n - 1) []) ::
        (ord.reverse.map (fun j => (j, payloads.getD j [])) ++ [])) i
        = some (payloads.getD i []) := by
    intro i hi
    rw [List.append_nil]
    by_cases hieq : i = n - 1
    · subst hieq
      exact lookupPart_cons_self _ _ _
    · rw [lookupPart_cons_ne _ _ _ _ (fun h => hieq h.symm)]
      have hnd : ord.reverse.Nodup := List.nodup_reverse.mpr
        (hperm.nodup_iff.mpr (List.nodup_range _))
      have hm : i ∈ ord.reverse := List.mem_reverse.mpr
        (hperm.mem_iff.mpr (List.mem_range.mpr (by omega)))
      exact lookupPart_map_self ord.reverse _ i hnd hm
  have hfin := chunkHandler_finalize_success payloads size n (0 + ord.length)
    (ord.reverse.map (fun j => (j, payloads.getD j [])) ++ []) none [] hn hlen hlook
  rw [List.map_append, runChunks_append] at hrun
  simp only [initState] at hrun
  rw [hpre.1] at hrun
  simp only [List.map_cons, List.map_nil, runChunks, hfin] at hrun
  injection hrun with h1 h2
  exact ⟨h1.symm, _, h2.symm, hpre.2⟩

/-- Witness for C1's amended theorem: a 2-chunk session with payloads
`[1]` and `[2, 3]` submitted in order `0, 1` finalizes once into the
artifact `[1, 2, 3]`. -/
theorem ordered_upload_assembles_witness :
    0 < 2 ∧ ([[1], [2, 3]] : List (List Nat)).length = 2 ∧
    ([0] : List Nat).Perm (List.range (2 - 1)) ∧
    ((⟨none, [], some [1, 2, 3], [⟨3⟩]⟩ : UpState) =
        ⟨none, [], some ([[1], [2, 3]] : List (List Nat)).join, [⟨3⟩]⟩ ∧
      ∃ rs, [ChunkResp.progress 0 1 2, ChunkResp.completed ⟨3⟩] =
          rs ++ [ChunkResp.completed ⟨3⟩] ∧
        ∀ r ∈ rs, ∃ i v, r = ChunkResp.progress i v 2) :=
  ⟨by norm_num, rfl, by decide,
   ordered_upload_assembles [[1], [2, 3]] 3 2 [0] _ _ (by norm_num) rfl (by decide) rfl⟩

/-- C1 counterexample: in the 2-chunk session with payloads `[1]` and
`[2, 3]`, submitting each chunk exactly once in the order `1, 0` (the
final submission is index 0, "whichever arrives last") never produces the
artifact: submitting index 1 triggers the finalize block immediately
(the code tests `index + 1 < totalChunks`, not coverage of the received
set), the loop fails on the missing chunk 0 and answers 500 leaving an
empty partial final file, and the later submission of index 0 merely
answers `completed:false`.  No metadata row is created and the final
file's content `[]` is not the concatenation `[1, 2, 3]`. -/
theorem out_of_order_upload_never_finalizes :
    runChunks false ([1, 0].map (mkReq [[1], [2, 3]] 3 2)) (initState 3 2) =
      (⟨some ⟨3, 2, 2⟩, [(0, [1]), (1, [2, 3])], some [], []⟩,
       [ChunkResp.serverError, ChunkResp.progress 0 2 2]) ∧
    some ([] : List Nat) ≠ some ([[1], [2, 3]] : List (List Nat)).join :=
  ⟨rfl, by decide⟩

/-- C3 (amended): every accepted submission of a non-final chunk index —
including a re-submission of an already-received index — increments the
session's received count by exactly one (the code increments a bare
counter, `uploadedChunks: { increment: 1 }`, without tracking which
indices were seen, so the count can exceed the total; see the
counterexample), and the stored bytes at that index afterwards read back
as the newly submitted payload (idempotent overwrite of the chunk
file). -/
theorem accepted_submission_increments_count (sess : Session) (req : ChunkReq)
    (st : UpState) (hsess : st.session = some sess) (h0 : 0 ≤ req.index)
    (hidx : req.index + 1 < (sess.totalChunks : Int))
    (htot : req.declTotal = (sess.totalChunks : Int)) (hsize : req.declSize = sess.size) :
    chunkHandler false req st =
      ({ st with
          session := some { sess with uploadedChunks := sess.uploadedChunks + 1 },
          parts := (req.index.toNat, req.bytes) :: st.parts },
       .progress req.index (sess.uploadedChunks + 1) sess.totalChunks) ∧
    lookupPart ((req.index.toNat, req.bytes) :: st.parts) req.index.toNat = some req.bytes := by
  have h1 : ¬ (req.index < 0) := by omega
  have h2 : ¬ (req.declTotal ≤ 0) := by omega
  have h3 : ¬ (req.index ≥ (sess.totalChunks : Int) ∨
      req.declTotal ≠ (sess.totalChunks : Int)) := by
    push_neg
    exact ⟨by omega, htot⟩
  have h4 : ¬ (req.declSize ≠ sess.size) := fun h => h hsize
  refine ⟨?_, lookupPart_cons_self _ _ _⟩
  simp only [chunkHandler, if_neg h1, if_neg h2, hsess, chunkHandlerRest, if_neg h3,
    if_neg h4, if_pos hidx]

/-- C3 counterexample: submitting chunk index 0 three times to a session
with `totalChunks = 2` drives the received count to 3, exceeding the
total — the count increments on every accepted submission, also for an
already-seen index. -/
theorem resubmitted_index_overcounts :
    (runChunks false [mkReq [[9], [8]] 5 2 0, mkReq [[9], [8]] 5 2 0, mkReq [[9], [8]] 5 2 0]
        (initState 5 2)).1.session = some ⟨5, 2, 3⟩ ∧ (2 : Nat) < 3 :=
  ⟨rfl, by norm_num⟩

/-- Witness for C3's amended theorem: re-submitting index 0 to a session
that already received it increments the count from 1 to 2 and overwrites
the stored bytes. -/
theorem accepted_submission_increments_count_witness :
    ((⟨some ⟨5, 2, 1⟩, [(0, [9])], none, []⟩ : UpState).session = some ⟨5, 2, 1⟩ ∧
      (0 : Int) ≤ (mkReq [[9], [8]] 5 2 0).index ∧
      (mkReq [[9], [8]] 5 2 0).index + 1 < ((2 : Nat) : Int)) ∧
    chunkHandler false (mkReq [[9], [8]] 5 2 0) ⟨some ⟨5, 2, 1⟩, [(0, [9])], none, []⟩ =
      (⟨some ⟨5, 2, 2⟩, [(0, [9]), (0, [9])], none, []⟩,
       ChunkResp.progress 0 2 2) ∧
    lookupPart [(0, [9]), (0, [9])] 0 = some [9] :=
  ⟨⟨rfl, by decide, by decide⟩,
   (accepted_submission_increments_count ⟨5, 2, 1⟩ (mkReq [[9], [8]] 5 2 0)
      ⟨some ⟨5, 2, 1⟩, [(0, [9])], none, []⟩ rfl (by decide) (by decide) rfl rfl).1,
   (accepted_submission_increments_count ⟨5, 2, 1⟩ (mkReq [[9], [8]] 5 2 0)
      ⟨some ⟨5, 2, 1⟩, [(0, [9])], none, []⟩ rfl (by decide) (by decide) rfl rfl).2⟩

/-- C4 (amended): when the finalize concatenation loop fails on a chunk
it cannot read, the error propagates as a 500, the session row (with its
incremented count) and every chunk file remain intact so the client can
retry by resubmitting the last chunk, and no metadata row is created —
but the partially written final artifact is NOT cleaned up: the catch
block of src/server.js lines 471-474 performs no cleanup, so the bytes
written before the failure stay on disk. -/
theorem failed_finalize_preserves_state (sess : Session) (req : ChunkReq) (st : UpState)
    (hsess : st.session = some sess) (h0 : 0 ≤ req.index)
    (hidx : req.index < (sess.totalChunks : Int))
    (hlast : ¬ (req.index + 1 < (sess.totalChunks : Int)))
    (htot : req.declTotal = (sess.totalChunks : Int)) (hsize : req.declSize = sess.size)
    (hfail : (writeLoop ((req.index.toNat, req.bytes) :: st.parts)
        (List.range sess.totalChunks) []).2 = false) :
    chunkHandler false req st =
      ({ st with
          session := some { sess with uploadedChunks := sess.uploadedChunks + 1 },
          parts := (req.index.toNat, req.bytes) :: st.parts,
          finalFile := some (writeLoop ((req.index.toNat, req.bytes) :: st.parts)
              (List.range sess.totalChunks) []).1 },
       .serverError) := by
  have h1 : ¬ (req.index < 0) := by omega
  have h2 : ¬ (req.declTotal ≤ 0) := by omega
  have h3 : ¬ (req.index ≥ (sess.totalChunks : Int) ∨
      req.declTotal ≠ (sess.totalChunks : Int)) := by
    push_neg
    exact ⟨by omega, htot⟩
  have h4 : ¬ (req.declSize ≠ sess.size) := fun h => h hsize
  simp only [chunkHandler, if_neg h1, if_neg h2, hsess, chunkHandlerRest, if_neg h3,
    if_neg h4, if_neg hlast, if_pos hfail]

/-- C4 counterexample: a finalize attempt that fails reading chunk 0
(submitting index 1 first in a 2-chunk session) leaves the
partially written final artifact on disk — the final file exists (here
empty) after the 500, where the claim requires it to be removed before
the error propagates. -/
theorem failed_finalize_keeps_final_file :
    chunkHandler false (mkReq [[1], [2, 3]] 3 2 1) (initState 3 2) =
      (⟨some ⟨3, 2, 1⟩, [(1, [2, 3])], some [], []⟩, ChunkResp.serverError) ∧
    (⟨some ⟨3, 2, 1⟩, [(1, [2, 3])], some [], []⟩ : UpState).finalFile ≠ none :=
  ⟨rfl, by simp⟩

/-- Witness for C4's amended theorem at the failing finalize of a 2-chunk
session whose chunk 0 is missing. -/
theorem failed_finalize_preserves_state_witness :
    ((initState 3 2).session = some ⟨3, 2, 0⟩ ∧
      (writeLoop [(1, [2, 3])] (List.range 2) []).2 = false) ∧
    chunkHandler false (mkReq [[1], [2, 3]] 3 2 1) (initState 3 2) =
      (⟨some ⟨3, 2, 1⟩, [(1, [2, 3])], some (writeLoop [(1, [2, 3])] (List.range 2) []).1, []⟩,
       ChunkResp.serverError) :=
  ⟨⟨rfl, rfl⟩,
   failed_finalize_preserves_state ⟨3, 2, 0⟩ (mkReq [[1], [2, 3]] 3 2 1) (initState 3 2)
     rfl (by decide) (by decide) (by decide) rfl rfl rfl⟩

/-- C5: when the metadata insert (`prisma.file.create`) fails after the
finalize block has fully written the artifact bytes, the handler answers
500 but performs no cleanup: the artifact bytes remain on disk with no
metadata row — and the chunk files were already deleted, so the session
cannot even be retried.  The claim requires the orphaned bytes to be
removed; the sibling single-shot upload path (src/server.js line 317)
does unlink on metadata failure, evidencing the omission in the chunked
path. -/
theorem registration_failure_orphans_artifact :
    chunkHandler true (mkReq [[7, 8]] 2 1 0) (initState 2 1) =
      (⟨some ⟨2, 1, 1⟩, [], some [7, 8], []⟩, ChunkResp.serverError) := rfl

/-- C9: two concurrent submissions of the same final chunk index, under
the event-loop schedule where both handlers perform the session read
(`findUnique`) before either proceeds and then run to completion one
after the other: the first caller finalizes and deletes the session row;
the second caller's `uploadedChunks` increment then fails (the row is
gone) and it receives a 500 — not the finalized artifact reference the
claim promises.  (Other schedules are worse: with both continuations
interleaved past the increment, both run the finalize loop and insert
duplicate metadata rows.)  The code has no per-session lock or one-shot
completion flag. -/
theorem concurrent_final_submissions_second_errors :
    (chunkHandlerRest false ⟨2, 1, 0⟩ (mkReq [[7, 8]] 2 1 0) (initState 2 1)).2 =
      ChunkResp.completed ⟨2⟩ ∧
    chunkHandlerRest false ⟨2, 1, 0⟩ (mkReq [[7, 8]] 2 1 0)
        (chunkHandlerRest false ⟨2, 1, 0⟩ (mkReq [[7, 8]] 2 1 0) (initState 2 1)).1 =
      (⟨none, [(0, [7, 8])], some [7, 8], [⟨2⟩]⟩, ChunkResp.serverError) :=
  ⟨rfl, rfl⟩

/-- C10: deleting a file whose backing bytes are already absent from disk
still succeeds: the `ENOENT` from `fsp.unlink` is swallowed by the catch
filter, the metadata row is deleted, and the handler replies 204. -/
theorem delete_tolerates_missing_backing_file (st : DelState)
    (hrec : st.record = true) (hdisk : st.diskFile = none) :
    deleteHandler st false = (⟨false, none⟩, .noContent) := by
  simp [deleteHandler, unlinkFile, hrec, hdisk]

/-- Witness for C10 at the state with a metadata row and no disk file. -/
theorem delete_tolerates_missing_backing_file_witness :
    (⟨true, none⟩ : DelState).record = true ∧
    (⟨true, none⟩ : DelState).diskFile = none ∧
    deleteHandler ⟨true, none⟩ false = (⟨false, none⟩, .noContent) :=
  ⟨rfl, rfl, delete_tolerates_missing_backing_file ⟨true, none⟩ rfl rfl⟩

end FileStorage
